import Mathlib

/-!
Verification of the per-source-IPv4 TC ingress rate limiter
(src/rateLimitter/common_um.h).

Shallow embedding of the kernel-side admission engine `tc_ingress`
(token-bucket keyed by source IP over a bounded BPF hash map, with
best-effort ring-buffer drop telemetry) and of the userspace `main`
control flow.  Machine integers are modelled as `Nat`/`Int` with
explicit reductions modulo `2 ^ 32` / `2 ^ 64` where the C code wraps.
-/

namespace RateLimiter

/-- `2 ^ 32`, the modulus of C `__u32` arithmetic. -/
def U32 : Nat := 4294967296

/-- `2 ^ 64`, the modulus of C `__u64` arithmetic. -/
def U64 : Nat := 18446744073709551616

/-- Value of a C `int` converted to `__u64` (sign extension then
reinterpretation, i.e. reduction of the integer modulo `2 ^ 64`). -/
def u64_of_int (x : Int) : Nat := (x % (U64 : Int)).toNat

/-- Value of a C `int` converted to `__u32` (reduction modulo `2 ^ 32`). -/
def u32_of_int (x : Int) : Nat := (x % (U32 : Int)).toNat

/-- C `__u64` subtraction `a - b` with wraparound (operands are values
already reduced modulo `2 ^ 64`). -/
def sub64 (a b : Nat) : Nat := (a % U64 + (U64 - b % U64)) % U64

/-- `struct rate_state`: per-source-IP rate limiter state stored in
`rate_map`.  Fields are `__u64 last_ts_ns`, `__u32 tokens`,
`__u32 dropped`. -/
structure rate_state where
  last_ts_ns : Nat
  tokens : Nat
  dropped : Nat
  deriving Repr, DecidableEq

/-- `struct event`: drop record pushed through the `rb` ring buffer
(`__u32 src_ip`, `__u64 ts_ns`, `__u32 dropped`). -/
structure event where
  src_ip : Nat
  ts_ns : Nat
  dropped : Nat
  deriving Repr, DecidableEq

/-- `rate_map` capacity: `__uint(max_entries, 16384)`. -/
def rate_map_max_entries : Nat := 16384

/-- The BPF hash map `rate_map` (key `__u32` source IP, value
`struct rate_state`): a partial map together with its current number of
entries, which the kernel bounds by `rate_map_max_entries`. -/
structure RateMap where
  lookup : Nat → Option rate_state
  size : Nat

/-- The map as created by the kernel at load time: no entries. -/
def emptyMap : RateMap := ⟨fun _ => none, 0⟩

/-- `bpf_map_lookup_elem(&rate_map, &src_ip)`. -/
def bpf_map_lookup_elem (m : RateMap) (k : Nat) : Option rate_state :=
  m.lookup k

/-- In-place update of an existing entry through the pointer returned by
lookup (`st->tokens--`, `st->dropped++`, ...). -/
def mapWrite (m : RateMap) (k : Nat) (v : rate_state) : RateMap :=
  { m with lookup := fun j => if j = k then some v else m.lookup j }

/-- `bpf_map_update_elem(&rate_map, &src_ip, &new_st, BPF_ANY)`: update
an existing key, or insert a new one; insertion of a new key into a full
hash map fails (the C code ignores the error), leaving the map
unchanged. -/
def bpf_map_update_elem (m : RateMap) (k : Nat) (v : rate_state) : RateMap :=
  match m.lookup k with
  | some _ => mapWrite m k v
  | none =>
    if m.size < rate_map_max_entries then
      { lookup := fun j => if j = k then some v else m.lookup j, size := m.size + 1 }
    else m

/-- `const volatile int rate_limit_pps` and `const volatile int burst`
(.rodata configuration, written once by userspace before load). -/
structure Config where
  rate_limit_pps : Int
  burst : Int
  deriving Repr, DecidableEq

/-- `TC_ACT_OK`: allow packet. -/
def TC_ACT_OK : Nat := 0

/-- `TC_ACT_SHOT`: drop packet. -/
def TC_ACT_SHOT : Nat := 2

/-- `ETH_P_IP`: IPv4 ethertype. -/
def ETH_P_IP : Nat := 0x0800

/-- `bpf_htons` on a little-endian host: 16-bit byte swap. -/
def bpf_htons (x : Nat) : Nat := x % 256 * 256 + x / 256 % 256

/-- The inputs `tc_ingress` reads from `struct __sk_buff`:
`ctx->protocol`, the frame length `data_end - data`, and the IPv4
source address `l3->saddr` found at the fixed header offset. -/
structure Packet where
  protocol : Nat
  len : Nat
  saddr : Nat
  deriving Repr, DecidableEq

/-- `sizeof(struct ethhdr)`. -/
def ethhdr_size : Nat := 14

/-- `sizeof(struct ethhdr) + sizeof(struct iphdr)`. -/
def eth_ip_size : Nat := 34

/-- The fresh state written on the first packet from a source:
`last_ts_ns = now`, `tokens = burst - 1` when `burst > 0` (zero from the
`memset` otherwise), `dropped = 0`. -/
def initState (cfg : Config) (now_ns : Nat) : rate_state :=
  { last_ts_ns := now_ns,
    tokens := if 0 < cfg.burst then u32_of_int (cfg.burst - 1) else 0,
    dropped := 0 }

/-- The refill block of `tc_ingress`: `elapsed = now_ns - st->last_ts_ns`
(`__u64` wraparound subtraction); if `rate_limit_pps > 0 && elapsed > 0`
then `add = elapsed * (__u64)rate_limit_pps / 1000000000ULL` (the product
taken modulo `2 ^ 64`), and if `add > 0` the tokens are topped up, capped
at `burst`, and the timestamp advanced. -/
def refill (cfg : Config) (now_ns : Nat) (st : rate_state) : rate_state :=
  let elapsed := sub64 now_ns st.last_ts_ns
  if 0 < cfg.rate_limit_pps ∧ 0 < elapsed then
    let add := elapsed * u64_of_int cfg.rate_limit_pps % U64 / 1000000000
    if 0 < add then
      let tokens64 := (st.tokens + add) % U64
      let capped := if u64_of_int cfg.burst < tokens64 then u64_of_int cfg.burst else tokens64
      { last_ts_ns := now_ns, tokens := capped % U32, dropped := st.dropped }
    else st
  else st

/-- Result of one `tc_ingress` invocation: the TC verdict, the map after
the call, and the drop record submitted to the ring buffer, if any. -/
structure StepResult where
  verdict : Nat
  map : RateMap
  ev : Option event

/-- `tc_ingress`: the TC ingress program.  `rb_has_space` abstracts
whether `bpf_ringbuf_reserve` succeeds. -/
def tc_ingress (cfg : Config) (m : RateMap) (rb_has_space : Bool)
    (now_ns : Nat) (p : Packet) : StepResult :=
  if p.protocol ≠ bpf_htons ETH_P_IP then ⟨TC_ACT_OK, m, none⟩
  else if p.len < ethhdr_size then ⟨TC_ACT_OK, m, none⟩
  else if p.len < eth_ip_size then ⟨TC_ACT_OK, m, none⟩
  else
    match bpf_map_lookup_elem m p.saddr with
    | none =>
      ⟨TC_ACT_OK, bpf_map_update_elem m p.saddr (initState cfg now_ns), none⟩
    | some st =>
      let st1 := refill cfg now_ns st
      if 0 < st1.tokens then
        ⟨TC_ACT_OK, mapWrite m p.saddr { st1 with tokens := st1.tokens - 1 }, none⟩
      else
        let st2 := { st1 with dropped := (st1.dropped + 1) % U32 }
        ⟨TC_ACT_SHOT, mapWrite m p.saddr st2,
          if rb_has_space then some ⟨p.saddr, now_ns, st2.dropped⟩ else none⟩

/-- A well-formed IPv4 frame carrying source address `src`. -/
def ipv4Packet (src : Nat) : Packet := ⟨bpf_htons ETH_P_IP, eth_ip_size, src⟩

/-- Run `tc_ingress` (ring buffer never full) over a list of
`(timestamp, source)` arrivals, returning the final map, the verdict
sequence, and the `dropped` values of the emitted events. -/
def stepTrace (cfg : Config) (m : RateMap) :
    List (Nat × Nat) → RateMap × List Nat × List Nat
  | [] => (m, [], [])
  | q :: rest =>
    let r := tc_ingress cfg m true q.1 (ipv4Packet q.2)
    let t := stepTrace cfg r.map rest
    (t.1, r.verdict :: t.2.1, (r.ev.map (fun e => e.dropped)).toList ++ t.2.2)

/-- The State Store invariant: every stored bucket satisfies
`tokens ≤ burst` (the lower bound `0 ≤ tokens` is inherent in the
unsigned representation, modelled by `Nat`). -/
def tokensBounded (B : Int) (m : RateMap) : Prop :=
  ∀ k st, m.lookup k = some st → st.tokens ≤ B.toNat

/-- The verdicts `tc_ingress` (ring buffer never full) hands to the
packets of source `S` inside an interleaved arrival trace. -/
def verdictsFor (cfg : Config) (S : Nat) : RateMap → List (Nat × Nat) → List Nat
  | _, [] => []
  | m, (now, src) :: rest =>
    let r := tc_ingress cfg m true now (ipv4Packet src)
    if src = S then r.verdict :: verdictsFor cfg S r.map rest
    else verdictsFor cfg S r.map rest

/-- The State Store after processing an arrival trace. -/
def runMap (cfg : Config) : RateMap → List (Nat × Nat) → RateMap
  | m, [] => m
  | m, (now, src) :: rest => runMap cfg (tc_ingress cfg m true now (ipv4Packet src)).map rest

/-- Capacity discipline along a trace: every packet either finds an
existing bucket or arrives while the State Store still has room, so no
insertion is silently dropped. -/
def runOk (cfg : Config) : RateMap → List (Nat × Nat) → Bool
  | _, [] => true
  | m, (now, src) :: rest =>
    ((m.lookup src).isSome || decide (m.size < rate_map_max_entries)) &&
      runOk cfg (tc_ingress cfg m true now (ipv4Packet src)).map rest

/-- The verdict and successor state of one tracked-bucket step of
`tc_ingress` (refill, then decrement-or-drop). -/
def bucketStep (cfg : Config) (now_ns : Nat) (st : rate_state) : Nat × rate_state :=
  let st1 := refill cfg now_ns st
  if 0 < st1.tokens then (TC_ACT_OK, { st1 with tokens := st1.tokens - 1 })
  else (TC_ACT_SHOT, { st1 with dropped := (st1.dropped + 1) % U32 })

/-- The single-bucket reference semantics: the verdicts a source receives
as a function of only its own bucket and its own arrival times. -/
def bucketRun (cfg : Config) : Option rate_state → List (Nat × Nat) → List Nat
  | _, [] => []
  | none, (now, _) :: rest => TC_ACT_OK :: bucketRun cfg (some (initState cfg now)) rest
  | some st, (now, _) :: rest =>
    (bucketStep cfg now st).1 :: bucketRun cfg (some (bucketStep cfg now st).2) rest

/-- A trace of one packet each from `n` distinct sources `0, …, n - 1`. -/
def fillTrace (n : Nat) : List (Nat × Nat) := (List.range n).map (fun i => (0, i))

/-- Abstract outcomes of the external calls made by the userspace `main`:
the `argp_parse` result, success of `setup()` and of the skeleton open,
the `rateLimiter_bpf__load` result, whether `if_nametoindex` succeeds,
the `bpf_tc_attach` result, whether `ring_buffer__new` succeeds, and the
successive `ring_buffer__poll` return values observed before the
`exiting` flag is seen. -/
structure MainEnv where
  argp_err : Int
  setup_ok : Bool
  open_ok : Bool
  load_err : Int
  ifindex_ok : Bool
  tc_attach_err : Int
  ringbuf_ok : Bool
  polls : List Int
  deriving Repr, DecidableEq

/-- `attach_tc`: returns `-1` when `if_nametoindex` fails, otherwise the
`bpf_tc_attach` error (0 on success); the `bpf_tc_hook_create` error
check is dead code since `err` is still 0 there. -/
def attach_tc (e : MainEnv) : Int :=
  if ¬ e.ifindex_ok then -1
  else if e.tc_attach_err ≠ 0 then e.tc_attach_err
  else 0

/-- `EINTR`. -/
def EINTR : Int := 4

/-- The `while (!exiting)` poll loop of `main`: `err` carries the last
`ring_buffer__poll` result; `-EINTR` is rewritten to 0 and breaks, other
negative results break, non-negative results (consumed record counts)
are kept in `err` and the loop continues; when the list is exhausted the
shutdown flag was observed and the current `err` survives to `return
-err`. -/
def pollLoop : Int → List Int → Int
  | err, [] => err
  | _, r :: rs => if r = -EINTR then 0 else if r < 0 then r else pollLoop r rs

/-- The userspace `main`: argument parsing, `setup()`, skeleton open,
configuration, load, TC attach, ring-buffer creation, poll loop, and
the final `return -err`. -/
def mainModel (e : MainEnv) : Int :=
  if e.argp_err ≠ 0 then e.argp_err
  else if ¬ e.setup_ok then 1
  else if ¬ e.open_ok then 1
  else if e.load_err ≠ 0 then -e.load_err
  else if attach_tc e ≠ 0 then -(attach_tc e)
  else if ¬ e.ringbuf_ok then 1
  else -(pollLoop 0 e.polls)

/-! ### Basic lemmas about the refill block -/

lemma sub64_self (a : Nat) : sub64 a a = 0 := by
  simp only [sub64, U64]
  omega

lemma refill_zero_elapsed (cfg : Config) (now : Nat) (st : rate_state)
    (h : sub64 now st.last_ts_ns = 0) : refill cfg now st = st := by
  simp only [refill, h]
  simp

lemma refill_of_not_active (cfg : Config) (now : Nat) (st : rate_state)
    (h : ¬ (0 < cfg.rate_limit_pps ∧ 0 < sub64 now st.last_ts_ns)) :
    refill cfg now st = st := by
  simp only [refill]
  rw [if_neg h]

lemma refill_dropped (cfg : Config) (now : Nat) (st : rate_state) :
    (refill cfg now st).dropped = st.dropped := by
  simp only [refill]
  split
  · split
    · rfl
    · rfl
  · rfl

lemma u64_of_int_small (x : Int) (h0 : 0 ≤ x) (h1 : x < 2 ^ 31) :
    u64_of_int x = x.toNat := by
  unfold u64_of_int
  congr 1
  have hU : (U64 : Int) = 18446744073709551616 := by norm_num [U64]
  rw [Int.emod_eq_of_lt h0 (by omega)]

/-- The refill block, under the `int`-range side conditions on the
configuration and the `tokens ≤ burst` state invariant, computes exactly
`tokens = min (tokens + add) burst` with
`add = elapsed * rate % 2 ^ 64 / 10 ^ 9`. -/
lemma refill_formula (cfg : Config) (now : Nat) (st : rate_state)
    (hB : 0 < cfg.burst) (hB31 : cfg.burst < 2 ^ 31)
    (ht : st.tokens ≤ cfg.burst.toNat)
    (hR : 0 < cfg.rate_limit_pps) (hel : 0 < sub64 now st.last_ts_ns) :
    refill cfg now st =
      if 0 < sub64 now st.last_ts_ns * u64_of_int cfg.rate_limit_pps % U64 / 1000000000 then
        { last_ts_ns := now,
          tokens := min
            (st.tokens + sub64 now st.last_ts_ns * u64_of_int cfg.rate_limit_pps % U64 / 1000000000)
            cfg.burst.toNat,
          dropped := st.dropped }
      else st := by
  have hb64 : u64_of_int cfg.burst = cfg.burst.toNat :=
    u64_of_int_small cfg.burst (le_of_lt hB) hB31
  have hBn : cfg.burst.toNat < 2 ^ 31 := by omega
  simp only [refill]
  rw [if_pos ⟨hR, hel⟩]
  set add := sub64 now st.last_ts_ns * u64_of_int cfg.rate_limit_pps % U64 / 1000000000 with hadddef
  have haddle : add ≤ 18446744073 := by
    have h1 : sub64 now st.last_ts_ns * u64_of_int cfg.rate_limit_pps % U64 ≤
        18446744073709551615 := by
      have := Nat.mod_lt (sub64 now st.last_ts_ns * u64_of_int cfg.rate_limit_pps)
        (show 0 < U64 by norm_num [U64])
      simp only [U64] at this ⊢
      omega
    calc add ≤ 18446744073709551615 / 1000000000 := Nat.div_le_div_right h1
    _ = 18446744073 := by norm_num
  split
  · have hsum : st.tokens + add < U64 := by simp only [U64]; omega
    rw [hb64, Nat.mod_eq_of_lt hsum]
    simp only [rate_state.mk.injEq, true_and, and_true]
    rcases Nat.le_total (st.tokens + add) cfg.burst.toNat with hle | hle
    · rw [Nat.min_eq_left hle, if_neg (by omega)]
      have : st.tokens + add < U32 := by simp only [U32]; omega
      exact Nat.mod_eq_of_lt this
    · rw [Nat.min_eq_right hle]
      rcases Nat.lt_or_ge cfg.burst.toNat (st.tokens + add) with hlt | hge
      · rw [if_pos hlt]
        exact Nat.mod_eq_of_lt (by simp only [U32]; omega)
      · rw [if_neg (by omega)]
        have heq : st.tokens + add = cfg.burst.toNat := by omega
        rw [heq]
        exact Nat.mod_eq_of_lt (by simp only [U32]; omega)
  · rfl

lemma refill_tokens_le (cfg : Config) (now : Nat) (st : rate_state)
    (hB : 0 < cfg.burst) (hB31 : cfg.burst < 2 ^ 31)
    (ht : st.tokens ≤ cfg.burst.toNat) :
    (refill cfg now st).tokens ≤ cfg.burst.toNat := by
  by_cases hact : 0 < cfg.rate_limit_pps ∧ 0 < sub64 now st.last_ts_ns
  · rw [refill_formula cfg now st hB hB31 ht hact.1 hact.2]
    split
    · exact Nat.min_le_right _ _
    · exact ht
  · rw [refill_of_not_active cfg now st hact]
    exact ht

/-! ### Unfolding lemmas for `tc_ingress` -/

lemma tc_ingress_wf (cfg : Config) (m : RateMap) (rb : Bool) (now : Nat) (p : Packet)
    (hp : p.protocol = bpf_htons ETH_P_IP) (hl : eth_ip_size ≤ p.len) :
    tc_ingress cfg m rb now p = tc_ingress cfg m rb now (ipv4Packet p.saddr) := by
  have h14 : ¬ p.len < 14 := by
    simp only [eth_ip_size] at hl
    omega
  have h34 : ¬ p.len < 34 := by
    simp only [eth_ip_size] at hl
    omega
  simp [tc_ingress, ipv4Packet, hp, h14, h34, ethhdr_size, eth_ip_size]

lemma tc_ingress_first_seen (cfg : Config) (m : RateMap) (rb : Bool) (now : Nat) (src : Nat)
    (hfind : m.lookup src = none) :
    tc_ingress cfg m rb now (ipv4Packet src) =
      ⟨TC_ACT_OK, bpf_map_update_elem m src (initState cfg now), none⟩ := by
  simp [tc_ingress, ipv4Packet, bpf_map_lookup_elem, hfind, ethhdr_size, eth_ip_size]

lemma tc_ingress_tracked (cfg : Config) (m : RateMap) (rb : Bool) (now : Nat)
    (src : Nat) (st : rate_state) (hfind : m.lookup src = some st) :
    tc_ingress cfg m rb now (ipv4Packet src) =
      if 0 < (refill cfg now st).tokens then
        ⟨TC_ACT_OK,
         mapWrite m src { refill cfg now st with tokens := (refill cfg now st).tokens - 1 },
         none⟩
      else
        ⟨TC_ACT_SHOT,
         mapWrite m src { refill cfg now st with dropped := ((refill cfg now st).dropped + 1) % U32 },
         if rb then some ⟨src, now, ((refill cfg now st).dropped + 1) % U32⟩ else none⟩ := by
  simp [tc_ingress, ipv4Packet, bpf_map_lookup_elem, hfind, ethhdr_size, eth_ip_size]

/-! ### Claim C5: fail-open on non-IPv4 and truncated frames -/

/-- Claim C5: for every frame that is not IPv4, and for every frame whose
layer-2 or layer-3 header does not fit within the packet bounds,
`tc_ingress` returns `TC_ACT_OK` (admit), leaves the State Store
untouched, and emits no event; the non-IPv4 check applies regardless of
the other fields, i.e. before any other processing. -/
theorem C5_parse_fail_open (cfg : Config) (m : RateMap) (rb : Bool) (now : Nat) (p : Packet)
    (h : p.protocol ≠ bpf_htons ETH_P_IP ∨ p.len < eth_ip_size) :
    tc_ingress cfg m rb now p = ⟨TC_ACT_OK, m, none⟩ := by
  unfold tc_ingress
  split
  · rfl
  · rename_i hp
    split
    · rfl
    · split
      · rfl
      · rename_i h14 h34
        rcases h with h | h
        · exact absurd (not_not.mp hp) h
        · exact absurd h h34

theorem C5_parse_fail_open_witness :
    ((Packet.mk 0 34 5).protocol ≠ bpf_htons ETH_P_IP ∨ (Packet.mk 0 34 5).len < eth_ip_size) ∧
    tc_ingress ⟨1000, 200⟩ emptyMap true 0 (Packet.mk 0 34 5) = ⟨TC_ACT_OK, emptyMap, none⟩ :=
  ⟨Or.inl (by decide),
   C5_parse_fail_open ⟨1000, 200⟩ emptyMap true 0 (Packet.mk 0 34 5) (Or.inl (by decide))⟩

/-! ### Claim C9: the verdict is always TC_ACT_OK or TC_ACT_SHOT -/

/-- Claim C9: for every input frame and every State Store state,
`tc_ingress` returns exactly one of the two verdicts `TC_ACT_OK` (0) or
`TC_ACT_SHOT` (2). -/
theorem C9_verdict_ok_or_shot (cfg : Config) (m : RateMap) (rb : Bool) (now : Nat) (p : Packet) :
    (tc_ingress cfg m rb now p).verdict = TC_ACT_OK ∨
    (tc_ingress cfg m rb now p).verdict = TC_ACT_SHOT := by
  simp only [tc_ingress]
  split
  · left; rfl
  split
  · left; rfl
  split
  · left; rfl
  split
  · left; rfl
  split
  · left; rfl
  · right; rfl

/-! ### Claim C2: zero / negative elapsed time -/

/-- Claim C2 counterexample: for a bucket whose `last_ts_ns` lies in the
future of `now` (negative elapsed time), the `__u64` subtraction wraps
around, so the refill step does NOT leave the state unchanged: with
`rate_limit_pps = 1000`, `burst = 200`, `now = 0` and
`last_ts_ns = 10 ^ 9`, an empty bucket is refilled to the full burst and
its timestamp is rewritten. -/
theorem C2_negative_elapsed_refutes :
    (refill ⟨1000, 200⟩ 0 ⟨1000000000, 0, 0⟩).tokens = 200 ∧
    refill ⟨1000, 200⟩ 0 ⟨1000000000, 0, 0⟩ ≠ ⟨1000000000, 0, 0⟩ :=
  ⟨by decide, by decide⟩

/-- Claim C2 (amended): zero elapsed time (`now - last_ts_ns ≡ 0` in
`__u64` arithmetic) grants no refill and leaves the bucket unchanged,
and the refill step never decreases `tokens` (given the `tokens ≤ burst`
invariant); for `now < last_ts_ns`, however, the unsigned subtraction
wraps around, so a refill of up to `burst` may be granted instead of the
state being left unchanged. -/
theorem C2_refill_never_decreases (cfg : Config) (now : Nat) (st : rate_state)
    (hB : 0 < cfg.burst) (hB31 : cfg.burst < 2 ^ 31)
    (ht : st.tokens ≤ cfg.burst.toNat) :
    (sub64 now st.last_ts_ns = 0 → refill cfg now st = st) ∧
    st.tokens ≤ (refill cfg now st).tokens := by
  refine ⟨refill_zero_elapsed cfg now st, ?_⟩
  by_cases hact : 0 < cfg.rate_limit_pps ∧ 0 < sub64 now st.last_ts_ns
  · rw [refill_formula cfg now st hB hB31 ht hact.1 hact.2]
    split
    · exact le_min (Nat.le_add_right _ _) ht
    · exact le_refl _
  · rw [refill_of_not_active cfg now st hact]

theorem C2_refill_never_decreases_witness :
    (0 : Int) < 200 ∧ (200 : Int) < 2 ^ 31 ∧
    (rate_state.mk 5 100 0).tokens ≤ (200 : Int).toNat ∧
    (sub64 5 (rate_state.mk 5 100 0).last_ts_ns = 0 →
      refill ⟨1000, 200⟩ 5 ⟨5, 100, 0⟩ = ⟨5, 100, 0⟩) ∧
    (rate_state.mk 5 100 0).tokens ≤ (refill ⟨1000, 200⟩ 5 ⟨5, 100, 0⟩).tokens :=
  ⟨by decide, by decide, by decide,
   (C2_refill_never_decreases ⟨1000, 200⟩ 5 ⟨5, 100, 0⟩ (by decide) (by decide) (by decide)).1,
   (C2_refill_never_decreases ⟨1000, 200⟩ 5 ⟨5, 100, 0⟩ (by decide) (by decide) (by decide)).2⟩

/-! ### Claim C4: the refill formula -/

/-- Claim C4 counterexample: the code computes `tokensToAdd` as
`elapsed * rate_limit_pps` in `__u64` arithmetic, which wraps for large
`elapsed × rate`: with `rate_limit_pps = 2`, `burst = 200`, a drained
bucket refilled after `elapsed = 2 ^ 63` ns is left completely
unchanged (`2 ^ 63 * 2 ≡ 0 (mod 2 ^ 64)`, so `add = 0`), whereas the
claimed mathematical formula
`tokensToAdd = floor(elapsed_seconds × ratePerSecond)` yields a full
refill to `min (0 + 2 ^ 63 * 2 / 10 ^ 9) 200 = 200` tokens with
`last_ts_ns = now`. -/
theorem C4_mul_overflow_refutes :
    refill ⟨2, 200⟩ (2 ^ 63) ⟨0, 0, 0⟩ = ⟨0, 0, 0⟩ ∧
    min (0 + sub64 (2 ^ 63) 0 * (2 : Int).toNat / 1000000000) 200 = 200 :=
  ⟨by decide, by decide⟩

/-- Claim C4 (amended): for an existing bucket with positive (wrapped)
elapsed time and `ratePerSecond > 0`, the refill step computes
`tokensToAdd = floor((elapsed × ratePerSecond mod 2 ^ 64) / 10 ^ 9)` —
the product is taken in unsigned 64-bit arithmetic and can wrap for
large `elapsed × ratePerSecond`; with that formula, if `tokensToAdd > 0`
it sets `tokens = min (tokens + tokensToAdd) burstCapacity` and
`lastRefillTimeNs = now`, and if `tokensToAdd = 0` it changes
nothing. -/
theorem C4_refill_mod64_formula (cfg : Config) (now : Nat) (st : rate_state)
    (hR : 0 < cfg.rate_limit_pps) (hR31 : cfg.rate_limit_pps < 2 ^ 31)
    (hB : 0 < cfg.burst) (hB31 : cfg.burst < 2 ^ 31)
    (ht : st.tokens ≤ cfg.burst.toNat)
    (hel : 0 < sub64 now st.last_ts_ns) :
    refill cfg now st =
      if 0 < sub64 now st.last_ts_ns * cfg.rate_limit_pps.toNat % U64 / 1000000000 then
        { last_ts_ns := now,
          tokens := min
            (st.tokens + sub64 now st.last_ts_ns * cfg.rate_limit_pps.toNat % U64 / 1000000000)
            cfg.burst.toNat,
          dropped := st.dropped }
      else st := by
  have hr64 : u64_of_int cfg.rate_limit_pps = cfg.rate_limit_pps.toNat :=
    u64_of_int_small cfg.rate_limit_pps (le_of_lt hR) hR31
  rw [refill_formula cfg now st hB hB31 ht hR hel, hr64]

theorem C4_refill_mod64_formula_witness :
    (0 : Int) < 10 ∧ (10 : Int) < 2 ^ 31 ∧
    (rate_state.mk 0 0 0).tokens ≤ (10 : Int).toNat ∧ 0 < sub64 1000000000 0 ∧
    refill ⟨10, 10⟩ 1000000000 ⟨0, 0, 0⟩ = ⟨1000000000, 10, 0⟩ ∧
    (tc_ingress ⟨10, 10⟩ (bpf_map_update_elem emptyMap 7 ⟨0, 0, 0⟩) true 1000000000
        (ipv4Packet 7)).map.lookup 7 = some ⟨1000000000, 9, 0⟩ :=
  ⟨by decide, by decide, by decide, by decide,
   (C4_refill_mod64_formula ⟨10, 10⟩ 1000000000 ⟨0, 0, 0⟩ (by decide) (by decide) (by decide)
      (by decide) (by decide) (by decide)).trans (by decide),
   by decide⟩

/-! ### Claim C3: the token-bound invariant -/

/-- Claim C3: assuming `burst > 0` (with the `int`-range side condition
`burst < 2 ^ 31`), every operation of the admission engine —
initialization of a fresh bucket, refill, token decrement, and drop
accounting — preserves the invariant `0 ≤ tokens ≤ burst` for every
bucket in the State Store. -/
theorem C3_tokens_invariant (cfg : Config) (m : RateMap) (rb : Bool) (now : Nat) (p : Packet)
    (hB : 0 < cfg.burst) (hB31 : cfg.burst < 2 ^ 31)
    (hm : tokensBounded cfg.burst m) :
    tokensBounded cfg.burst (tc_ingress cfg m rb now p).map := by
  simp only [tc_ingress]
  split
  · exact hm
  split
  · exact hm
  split
  · exact hm
  split
  · -- first-seen path: a fresh bucket is inserted
    rename_i heq
    simp only [bpf_map_lookup_elem] at heq
    intro k st hk
    simp only [bpf_map_update_elem, heq] at hk
    split at hk
    · simp only at hk
      split at hk
      · cases hk
        simp only [initState, if_pos hB, u32_of_int, U32]
        omega
      · exact hm k st hk
    · exact hm k st hk
  · -- tracked path: refill then decrement or drop
    rename_i st0 heq
    simp only [bpf_map_lookup_elem] at heq
    have hst0 : st0.tokens ≤ cfg.burst.toNat := hm p.saddr st0 heq
    have href : (refill cfg now st0).tokens ≤ cfg.burst.toNat :=
      refill_tokens_le cfg now st0 hB hB31 hst0
    split
    · intro k st hk
      simp only [mapWrite] at hk
      split at hk
      · cases hk
        simp only
        omega
      · exact hm k st hk
    · intro k st hk
      simp only [mapWrite] at hk
      split at hk
      · cases hk
        simp only
        omega
      · exact hm k st hk

theorem C3_tokens_invariant_witness :
    (0 : Int) < 200 ∧ (200 : Int) < 2 ^ 31 ∧ tokensBounded 200 emptyMap ∧
    tokensBounded 200 (tc_ingress ⟨1000, 200⟩ emptyMap true 0 (Packet.mk 8 34 5)).map :=
  ⟨by decide, by decide, fun _ _ h => Option.noConfusion h,
   C3_tokens_invariant ⟨1000, 200⟩ emptyMap true 0 (Packet.mk 8 34 5)
     (by decide) (by decide) (fun _ _ h => Option.noConfusion h)⟩

/-! ### Claim C6: telemetry loss never affects the drop verdict -/

/-- Claim C6: when the engine decides to drop (tracked bucket with no
tokens after refill), the drop verdict and the `droppedCount` increment
happen regardless of whether the ring buffer has capacity: the verdict
equals the verdict obtained with a non-full ring buffer, and when
reservation fails the event is silently lost (`ev = none`) while the
packet is still dropped. -/
theorem C6_drop_despite_ringbuf_full (cfg : Config) (m : RateMap) (now : Nat) (p : Packet)
    (st : rate_state)
    (hp : p.protocol = bpf_htons ETH_P_IP) (hl : eth_ip_size ≤ p.len)
    (hfind : m.lookup p.saddr = some st)
    (h0 : (refill cfg now st).tokens = 0) :
    (tc_ingress cfg m false now p).verdict = TC_ACT_SHOT ∧
    (tc_ingress cfg m false now p).ev = none ∧
    (tc_ingress cfg m false now p).map.lookup p.saddr =
      some ⟨(refill cfg now st).last_ts_ns, 0, (st.dropped + 1) % U32⟩ ∧
    (tc_ingress cfg m false now p).verdict = (tc_ingress cfg m true now p).verdict := by
  rw [tc_ingress_wf cfg m false now p hp hl, tc_ingress_wf cfg m true now p hp hl,
    tc_ingress_tracked cfg m false now p.saddr st hfind,
    tc_ingress_tracked cfg m true now p.saddr st hfind,
    if_neg (by omega : ¬ 0 < (refill cfg now st).tokens),
    if_neg (by omega : ¬ 0 < (refill cfg now st).tokens)]
  refine ⟨rfl, rfl, ?_, rfl⟩
  simp [mapWrite, h0, refill_dropped]

theorem C6_drop_despite_ringbuf_full_witness :
    (Packet.mk 8 34 7).protocol = bpf_htons ETH_P_IP ∧ eth_ip_size ≤ (Packet.mk 8 34 7).len ∧
    (bpf_map_update_elem emptyMap 7 ⟨0, 0, 3⟩).lookup 7 = some ⟨0, 0, 3⟩ ∧
    (refill ⟨1000, 200⟩ 0 ⟨0, 0, 3⟩).tokens = 0 ∧
    (tc_ingress ⟨1000, 200⟩ (bpf_map_update_elem emptyMap 7 ⟨0, 0, 3⟩) false 0
        (Packet.mk 8 34 7)).verdict = TC_ACT_SHOT ∧
    (tc_ingress ⟨1000, 200⟩ (bpf_map_update_elem emptyMap 7 ⟨0, 0, 3⟩) false 0
        (Packet.mk 8 34 7)).ev = none ∧
    (tc_ingress ⟨1000, 200⟩ (bpf_map_update_elem emptyMap 7 ⟨0, 0, 3⟩) false 0
        (Packet.mk 8 34 7)).map.lookup 7 = some ⟨0, 0, 4 % U32⟩ :=
  ⟨by decide, by decide, by decide, by decide,
   (C6_drop_despite_ringbuf_full ⟨1000, 200⟩ (bpf_map_update_elem emptyMap 7 ⟨0, 0, 3⟩) 0
      (Packet.mk 8 34 7) ⟨0, 0, 3⟩ (by decide) (by decide) (by decide) (by decide)).1,
   (C6_drop_despite_ringbuf_full ⟨1000, 200⟩ (bpf_map_update_elem emptyMap 7 ⟨0, 0, 3⟩) 0
      (Packet.mk 8 34 7) ⟨0, 0, 3⟩ (by decide) (by decide) (by decide) (by decide)).2.1,
   (C6_drop_despite_ringbuf_full ⟨1000, 200⟩ (bpf_map_update_elem emptyMap 7 ⟨0, 0, 3⟩) 0
      (Packet.mk 8 34 7) ⟨0, 0, 3⟩ (by decide) (by decide) (by decide) (by decide)).2.2.1⟩

/-! ### Claim C10: per-packet frame effect on a tracked bucket -/

/-- Claim C10: for a packet processed against an existing bucket, if the
verdict is admit then `dropped` is unchanged (only `tokens` and possibly
`last_ts_ns` change), and if the verdict is drop then `tokens` and
`last_ts_ns` keep their post-refill values while `dropped` increases by
exactly 1 modulo `2 ^ 32`. -/
theorem C10_bucket_frame_effect (cfg : Config) (m : RateMap) (rb : Bool) (now : Nat)
    (p : Packet) (st : rate_state)
    (hp : p.protocol = bpf_htons ETH_P_IP) (hl : eth_ip_size ≤ p.len)
    (hfind : m.lookup p.saddr = some st) :
    (0 < (refill cfg now st).tokens →
      (tc_ingress cfg m rb now p).verdict = TC_ACT_OK ∧
      (tc_ingress cfg m rb now p).map.lookup p.saddr =
        some ⟨(refill cfg now st).last_ts_ns, (refill cfg now st).tokens - 1, st.dropped⟩) ∧
    ((refill cfg now st).tokens = 0 →
      (tc_ingress cfg m rb now p).verdict = TC_ACT_SHOT ∧
      (tc_ingress cfg m rb now p).map.lookup p.saddr =
        some ⟨(refill cfg now st).last_ts_ns, (refill cfg now st).tokens,
          (st.dropped + 1) % U32⟩) := by
  rw [tc_ingress_wf cfg m rb now p hp hl, tc_ingress_tracked cfg m rb now p.saddr st hfind]
  constructor
  · intro htok
    rw [if_pos htok]
    refine ⟨rfl, ?_⟩
    simp [mapWrite, refill_dropped]
  · intro htok
    rw [if_neg (by omega : ¬ 0 < (refill cfg now st).tokens)]
    refine ⟨rfl, ?_⟩
    simp [mapWrite, refill_dropped]

theorem C10_bucket_frame_effect_witness :
    (Packet.mk 8 34 7).protocol = bpf_htons ETH_P_IP ∧ eth_ip_size ≤ (Packet.mk 8 34 7).len ∧
    (bpf_map_update_elem emptyMap 7 ⟨0, 5, 3⟩).lookup 7 = some ⟨0, 5, 3⟩ ∧
    0 < (refill ⟨1000, 200⟩ 0 ⟨0, 5, 3⟩).tokens ∧
    (tc_ingress ⟨1000, 200⟩ (bpf_map_update_elem emptyMap 7 ⟨0, 5, 3⟩) true 0
        (Packet.mk 8 34 7)).verdict = TC_ACT_OK ∧
    (tc_ingress ⟨1000, 200⟩ (bpf_map_update_elem emptyMap 7 ⟨0, 5, 3⟩) true 0
        (Packet.mk 8 34 7)).map.lookup 7 =
      some ⟨(refill ⟨1000, 200⟩ 0 ⟨0, 5, 3⟩).last_ts_ns,
        (refill ⟨1000, 200⟩ 0 ⟨0, 5, 3⟩).tokens - 1, 3⟩ :=
  ⟨by decide, by decide, by decide, by decide,
   ((C10_bucket_frame_effect ⟨1000, 200⟩ (bpf_map_update_elem emptyMap 7 ⟨0, 5, 3⟩) true 0
      (Packet.mk 8 34 7) ⟨0, 5, 3⟩ (by decide) (by decide) (by decide)).1 (by decide)).1,
   ((C10_bucket_frame_effect ⟨1000, 200⟩ (bpf_map_update_elem emptyMap 7 ⟨0, 5, 3⟩) true 0
      (Packet.mk 8 34 7) ⟨0, 5, 3⟩ (by decide) (by decide) (by decide)).1 (by decide)).2⟩

/-! ### Claim C1: an instantaneous burst against one source -/

lemma u32_of_int_pred (B : Int) (hB : 0 < B) (hB31 : B < 2 ^ 31) :
    u32_of_int (B - 1) = B.toNat - 1 := by
  simp only [u32_of_int, U32]
  omega

/-- Reindexing of the wrapped drop-counter values when one drop event is
peeled off the front of a run of drops. -/
lemma map_mod_shift (d n : Nat) :
    ((d + 1) % U32) :: (List.range n).map (fun i => ((d + 1) % U32 + i + 1) % U32) =
      (List.range (n + 1)).map (fun i => (d + i + 1) % U32) := by
  rw [List.range_succ_eq_map, List.map_cons, List.map_map]
  congr 1
  apply List.map_congr_left
  intro a _
  simp only [Function.comp_apply]
  rw [Nat.add_assoc ((d + 1) % U32) a 1, Nat.mod_add_mod]
  congr 1
  omega

/-- Draining a tracked bucket with packets that arrive at the bucket's
own timestamp (zero elapsed time): the first `t` packets are admitted,
all later ones dropped, with the drop events carrying the successive
`dropped` counter values modulo `2 ^ 32`. -/
lemma stepTrace_drain (cfg : Config) (src now : Nat) :
    ∀ (n : Nat) (m : RateMap) (t d : Nat),
      m.lookup src = some ⟨now, t, d⟩ → d < U32 →
      (stepTrace cfg m (List.replicate n (now, src))).2.1 =
        List.replicate (min n t) TC_ACT_OK ++ List.replicate (n - t) TC_ACT_SHOT ∧
      (stepTrace cfg m (List.replicate n (now, src))).2.2 =
        (List.range (n - t)).map (fun i => (d + i + 1) % U32) := by
  intro n
  induction n with
  | zero =>
    intro m t d hfind hd
    simp [stepTrace]
  | succ n ih =>
    intro m t d hfind hd
    rw [List.replicate_succ]
    simp only [stepTrace]
    have hstep := tc_ingress_tracked cfg m true now src ⟨now, t, d⟩ hfind
    rw [refill_zero_elapsed cfg now ⟨now, t, d⟩ (sub64_self now)] at hstep
    cases t with
    | zero =>
      rw [if_neg (by simp : ¬ (0:Nat) < (rate_state.mk now 0 d).tokens)] at hstep
      rw [hstep]
      have hfind' : (mapWrite m src ⟨now, 0, (d + 1) % U32⟩).lookup src =
          some ⟨now, 0, (d + 1) % U32⟩ := by simp [mapWrite]
      have hd' : (d + 1) % U32 < U32 := Nat.mod_lt _ (by norm_num [U32])
      obtain ⟨hv, he⟩ := ih (mapWrite m src ⟨now, 0, (d + 1) % U32⟩) 0 ((d + 1) % U32) hfind' hd'
      constructor
      · rw [Nat.min_zero, List.replicate_zero, List.nil_append, Nat.sub_zero,
          List.replicate_succ]
        simp [hv]
      · rw [Nat.sub_zero]
        refine Eq.trans ?_ (map_mod_shift d n)
        simp [he]
    | succ t' =>
      rw [if_pos (by simp : (0:Nat) < (rate_state.mk now (t' + 1) d).tokens)] at hstep
      rw [hstep]
      have hfind' : (mapWrite m src ⟨now, t', d⟩).lookup src =
          some ⟨now, t', d⟩ := by simp [mapWrite]
      obtain ⟨hv, he⟩ := ih (mapWrite m src ⟨now, t', d⟩) t' d hfind' hd
      constructor
      · rw [Nat.succ_min_succ, List.replicate_succ, List.cons_append, Nat.succ_sub_succ]
        simp [hv]
      · rw [Nat.succ_sub_succ]
        simp [he]

/-- A burst of `N` packets from a single previously-unseen source with
zero elapsed time between packets, starting from an empty State Store:
`burst` admissions followed by `N - burst` drops, with drop events
numbered `1, 2, …` modulo `2 ^ 32`. -/
lemma stepTrace_burst (cfg : Config) (src now : Nat) (N : Nat)
    (hB : 0 < cfg.burst) (hB31 : cfg.burst < 2 ^ 31) (hN : cfg.burst.toNat < N) :
    (stepTrace cfg emptyMap (List.replicate N (now, src))).2.1 =
      List.replicate cfg.burst.toNat TC_ACT_OK ++
        List.replicate (N - cfg.burst.toNat) TC_ACT_SHOT ∧
    (stepTrace cfg emptyMap (List.replicate N (now, src))).2.2 =
      (List.range (N - cfg.burst.toNat)).map (fun i => (i + 1) % U32) := by
  obtain ⟨N', rfl⟩ : ∃ N', N = N' + 1 := ⟨N - 1, by omega⟩
  rw [List.replicate_succ]
  simp only [stepTrace]
  rw [tc_ingress_first_seen cfg emptyMap true now src rfl]
  have hins : (bpf_map_update_elem emptyMap src (initState cfg now)).lookup src =
      some ⟨now, cfg.burst.toNat - 1, 0⟩ := by
    simp [bpf_map_update_elem, emptyMap, rate_map_max_entries, initState, if_pos hB,
      u32_of_int_pred cfg.burst hB hB31]
  obtain ⟨hv, he⟩ := stepTrace_drain cfg src now N'
    (bpf_map_update_elem emptyMap src (initState cfg now)) (cfg.burst.toNat - 1) 0 hins
    (by norm_num [U32])
  constructor
  · simp only [hv]
    rw [Nat.min_eq_right (by omega : cfg.burst.toNat - 1 ≤ N')]
    rw [show N' - (cfg.burst.toNat - 1) = N' + 1 - cfg.burst.toNat from by omega]
    rw [show cfg.burst.toNat = (cfg.burst.toNat - 1) + 1 from by omega]
    simp [List.replicate_succ]
  · simp only [he]
    rw [show N' - (cfg.burst.toNat - 1) = N' + 1 - cfg.burst.toNat from by omega]
    simp

/-- Claim C1 counterexample: the claim as stated fails for bursts longer
than `burstCapacity + 2 ^ 32`, because the `__u32` `dropped` counter and
the emitted `droppedCount` values wrap modulo `2 ^ 32`: with `R = 1000`,
`B = 1`, `N = 2 ^ 32 + 2` instantaneous packets from one fresh source,
the emitted event values are not `1, 2, …, N - B` (the `2 ^ 32`-th drop
event carries `droppedCount = 0`). -/
theorem C1_event_wrap_refutes :
    (stepTrace ⟨1000, 1⟩ emptyMap (List.replicate (U32 + 2) (0, 5))).2.2 ≠
      (List.range (U32 + 2 - (1 : Int).toNat)).map (fun i => i + 1) := by
  obtain ⟨hv, he⟩ := stepTrace_burst ⟨1000, 1⟩ 5 0 (U32 + 2) (by decide)
    (by decide) (by norm_num [U32])
  intro hcontra
  have h0 : (0 : Nat) ∈ (stepTrace ⟨1000, 1⟩ emptyMap (List.replicate (U32 + 2) (0, 5))).2.2 := by
    rw [he]
    refine List.mem_map.mpr ⟨U32 - 1, ?_, ?_⟩
    · rw [List.mem_range]
      norm_num [U32]
    · norm_num [U32]
  rw [hcontra] at h0
  obtain ⟨i, _, hi⟩ := List.mem_map.mp h0
  omega

/-- Claim C1 (amended): for `ratePerSecond = R > 0`, `burstCapacity = B`
with `0 < B < 2 ^ 31`, and every `N` with `B < N` and `N - B < 2 ^ 32`,
a burst of `N` packets from one previously-unseen IPv4 source with zero
elapsed time between packets yields exactly `B` admitted packets
followed by exactly `N - B` drops, and the emitted drop events carry
`droppedCount` values `1, 2, …, N - B` in that order (for `N - B ≥
2 ^ 32` the emitted values wrap modulo `2 ^ 32`). -/
theorem C1_burst_admits_B_drops_rest (cfg : Config) (src now : Nat) (N : Nat)
    (hR : 0 < cfg.rate_limit_pps) (hB : 0 < cfg.burst) (hB31 : cfg.burst < 2 ^ 31)
    (hN : cfg.burst.toNat < N) (hwrap : N - cfg.burst.toNat < U32) :
    (stepTrace cfg emptyMap (List.replicate N (now, src))).2.1 =
      List.replicate cfg.burst.toNat TC_ACT_OK ++
        List.replicate (N - cfg.burst.toNat) TC_ACT_SHOT ∧
    ((stepTrace cfg emptyMap (List.replicate N (now, src))).2.1).count TC_ACT_OK =
      cfg.burst.toNat ∧
    ((stepTrace cfg emptyMap (List.replicate N (now, src))).2.1).count TC_ACT_SHOT =
      N - cfg.burst.toNat ∧
    (stepTrace cfg emptyMap (List.replicate N (now, src))).2.2 =
      (List.range (N - cfg.burst.toNat)).map (fun i => i + 1) := by
  obtain ⟨hv, he⟩ := stepTrace_burst cfg src now N hB hB31 hN
  refine ⟨hv, ?_, ?_, ?_⟩
  · rw [hv]
    simp [List.count_append, List.count_replicate, TC_ACT_OK, TC_ACT_SHOT]
  · rw [hv]
    simp [List.count_append, List.count_replicate, TC_ACT_OK, TC_ACT_SHOT]
  · rw [he]
    apply List.map_congr_left
    intro i hi
    rw [List.mem_range] at hi
    exact Nat.mod_eq_of_lt (by omega)

theorem C1_burst_admits_B_drops_rest_witness :
    (0 : Int) < 1000 ∧ (0 : Int) < 200 ∧ (200 : Int) < 2 ^ 31 ∧
    (200 : Int).toNat < 500 ∧ 500 - (200 : Int).toNat < U32 ∧
    (stepTrace ⟨1000, 200⟩ emptyMap (List.replicate 500 (0, 5))).2.1 =
      List.replicate (200 : Int).toNat TC_ACT_OK ++
        List.replicate (500 - (200 : Int).toNat) TC_ACT_SHOT ∧
    ((stepTrace ⟨1000, 200⟩ emptyMap (List.replicate 500 (0, 5))).2.1).count TC_ACT_OK =
      (200 : Int).toNat ∧
    ((stepTrace ⟨1000, 200⟩ emptyMap (List.replicate 500 (0, 5))).2.1).count TC_ACT_SHOT =
      500 - (200 : Int).toNat ∧
    (stepTrace ⟨1000, 200⟩ emptyMap (List.replicate 500 (0, 5))).2.2 =
      (List.range (500 - (200 : Int).toNat)).map (fun i => i + 1) ∧
    ((List.range (500 - (200 : Int).toNat)).map (fun i => i + 1)).getLast? = some 300 :=
  ⟨by decide, by decide, by decide, by decide, by decide,
   (C1_burst_admits_B_drops_rest ⟨1000, 200⟩ 5 0 500 (by decide) (by decide) (by decide)
      (by decide) (by decide)).1,
   (C1_burst_admits_B_drops_rest ⟨1000, 200⟩ 5 0 500 (by decide) (by decide) (by decide)
      (by decide) (by decide)).2.1,
   (C1_burst_admits_B_drops_rest ⟨1000, 200⟩ 5 0 500 (by decide) (by decide) (by decide)
      (by decide) (by decide)).2.2.1,
   (C1_burst_admits_B_drops_rest ⟨1000, 200⟩ 5 0 500 (by decide) (by decide) (by decide)
      (by decide) (by decide)).2.2.2,
   by decide⟩

/-! ### Claim C7: per-source independence and the capacity limit -/

lemma bpf_map_update_elem_new (m : RateMap) (k : Nat) (v : rate_state)
    (hfind : m.lookup k = none) (hsize : m.size < rate_map_max_entries) :
    (bpf_map_update_elem m k v).lookup k = some v := by
  simp [bpf_map_update_elem, hfind, hsize]

lemma bpf_map_update_elem_new_size (m : RateMap) (k : Nat) (v : rate_state)
    (hfind : m.lookup k = none) (hsize : m.size < rate_map_max_entries) :
    (bpf_map_update_elem m k v).size = m.size + 1 := by
  simp [bpf_map_update_elem, hfind, hsize]

lemma bpf_map_update_elem_full (m : RateMap) (k : Nat) (v : rate_state)
    (hfind : m.lookup k = none) (hsize : ¬ m.size < rate_map_max_entries) :
    bpf_map_update_elem m k v = m := by
  simp [bpf_map_update_elem, hfind, hsize]

lemma bpf_map_update_elem_other (m : RateMap) (k j : Nat) (v : rate_state)
    (hj : j ≠ k) : (bpf_map_update_elem m k v).lookup j = m.lookup j := by
  cases hfind : m.lookup k with
  | some st => simp [bpf_map_update_elem, hfind, mapWrite, hj]
  | none =>
    simp only [bpf_map_update_elem, hfind]
    split
    · simp [hj]
    · rfl

/-- A packet from a different source never touches the bucket of `S`. -/
lemma tc_ingress_lookup_other (cfg : Config) (m : RateMap) (rb : Bool) (now src S : Nat)
    (hne : src ≠ S) :
    (tc_ingress cfg m rb now (ipv4Packet src)).map.lookup S = m.lookup S := by
  cases hfind : m.lookup src with
  | none =>
    rw [tc_ingress_first_seen cfg m rb now src hfind]
    exact bpf_map_update_elem_other m src S (initState cfg now) (Ne.symm hne)
  | some st =>
    rw [tc_ingress_tracked cfg m rb now src st hfind]
    split
    · simp [mapWrite, Ne.symm hne]
    · simp [mapWrite, Ne.symm hne]

/-- A packet from a tracked source steps its own bucket exactly as
`bucketStep` does, for any ring-buffer state. -/
lemma tc_ingress_tracked_bucketStep (cfg : Config) (m : RateMap) (rb : Bool) (now src : Nat)
    (st : rate_state) (hfind : m.lookup src = some st) :
    (tc_ingress cfg m rb now (ipv4Packet src)).verdict = (bucketStep cfg now st).1 ∧
    (tc_ingress cfg m rb now (ipv4Packet src)).map.lookup src =
      some (bucketStep cfg now st).2 := by
  by_cases h : 0 < (refill cfg now st).tokens
  · rw [tc_ingress_tracked cfg m rb now src st hfind, if_pos h]
    simp only [bucketStep]
    rw [if_pos h]
    exact ⟨rfl, by simp [mapWrite]⟩
  · rw [tc_ingress_tracked cfg m rb now src st hfind, if_neg h]
    simp only [bucketStep]
    rw [if_neg h]
    exact ⟨rfl, by simp [mapWrite]⟩

/-- Simulation: as long as every first-seen packet arrives while the
State Store has room, the verdicts received by source `S` are computed
by the single-bucket semantics on `S`'s own sub-trace alone. -/
lemma verdictsFor_eq_bucketRun (cfg : Config) (S : Nat) :
    ∀ (tr : List (Nat × Nat)) (m : RateMap), runOk cfg m tr = true →
      verdictsFor cfg S m tr = bucketRun cfg (m.lookup S) (tr.filter (fun q => q.2 == S)) := by
  intro tr
  induction tr with
  | nil =>
    intro m _
    simp [verdictsFor, bucketRun]
  | cons q rest ih =>
    intro m hok
    obtain ⟨now, src⟩ := q
    simp only [runOk, Bool.and_eq_true, Bool.or_eq_true, decide_eq_true_eq,
      Option.isSome_iff_exists] at hok
    obtain ⟨hhead, hrest⟩ := hok
    by_cases hsrc : src = S
    · subst hsrc
      cases hfind : m.lookup src with
      | none =>
        have hsize : m.size < rate_map_max_entries := by
          rcases hhead with ⟨st, hst⟩ | h
          · rw [hfind] at hst
            cases hst
          · exact h
        rw [tc_ingress_first_seen cfg m true now src hfind] at hrest
        dsimp only at hrest
        simp only [verdictsFor]
        rw [if_pos trivial, tc_ingress_first_seen cfg m true now src hfind,
          List.filter_cons_of_pos (by simp)]
        dsimp only
        simp only [bucketRun]
        rw [ih _ hrest, bpf_map_update_elem_new m src (initState cfg now) hfind hsize]
      | some st =>
        obtain ⟨hverd, hmap⟩ := tc_ingress_tracked_bucketStep cfg m true now src st hfind
        simp only [verdictsFor]
        rw [if_pos trivial, List.filter_cons_of_pos (by simp)]
        simp only [bucketRun]
        rw [hverd, ih _ hrest, hmap]
    · simp only [verdictsFor]
      rw [if_neg hsrc, List.filter_cons_of_neg (by simp [hsrc])]
      rw [ih _ hrest, tc_ingress_lookup_other cfg m true now src S hsrc]

lemma verdictsFor_append (cfg : Config) (S : Nat) :
    ∀ (l1 l2 : List (Nat × Nat)) (m : RateMap),
      verdictsFor cfg S m (l1 ++ l2) =
        verdictsFor cfg S m l1 ++ verdictsFor cfg S (runMap cfg m l1) l2 := by
  intro l1
  induction l1 with
  | nil =>
    intro l2 m
    simp [verdictsFor, runMap]
  | cons q rest ih =>
    intro l2 m
    obtain ⟨now, src⟩ := q
    simp only [List.cons_append, verdictsFor, runMap]
    split
    · simp [ih]
    · simp [ih]

lemma verdictsFor_of_not_mem (cfg : Config) (S : Nat) :
    ∀ (l : List (Nat × Nat)) (m : RateMap), (∀ q ∈ l, q.2 ≠ S) →
      verdictsFor cfg S m l = [] := by
  intro l
  induction l with
  | nil =>
    intro m _
    simp [verdictsFor]
  | cons q rest ih =>
    intro m h
    obtain ⟨now, src⟩ := q
    simp only [verdictsFor]
    rw [if_neg (h (now, src) (List.mem_cons_self _ _))]
    exact ih _ (fun q hq => h q (List.mem_cons_of_mem _ hq))

/-- Feeding one packet each from `n` fresh distinct sources grows the
State Store by exactly `n` entries and leaves all other keys alone. -/
lemma runMap_fresh_sources (cfg : Config) :
    ∀ (n k : Nat) (m : RateMap),
      (∀ i, i < n → m.lookup (k + i) = none) →
      m.size + n ≤ rate_map_max_entries →
      (runMap cfg m ((List.range n).map (fun i => (0, k + i)))).size = m.size + n ∧
      (∀ s, s < k ∨ k + n ≤ s →
        (runMap cfg m ((List.range n).map (fun i => (0, k + i)))).lookup s = m.lookup s) := by
  intro n
  induction n with
  | zero =>
    intro k m _ _
    simp [runMap]
  | succ n ih =>
    intro k m hnone hsize
    have hlist : (List.range (n + 1)).map (fun i => ((0 : Nat), k + i)) =
        (0, k) :: (List.range n).map (fun i => (0, (k + 1) + i)) := by
      rw [List.range_succ_eq_map, List.map_cons, List.map_map]
      congr 1
      apply List.map_congr_left
      intro a _
      simp only [Function.comp_apply, Prod.mk.injEq, true_and]
      omega
    rw [hlist]
    simp only [runMap]
    have hk0 : m.lookup k = none := by
      have h := hnone 0 (by omega)
      simpa using h
    rw [tc_ingress_first_seen cfg m true 0 k hk0]
    have hm1size : (bpf_map_update_elem m k (initState cfg 0)).size = m.size + 1 :=
      bpf_map_update_elem_new_size m k (initState cfg 0) hk0 (by omega)
    obtain ⟨ihsize, ihlookup⟩ := ih (k + 1) (bpf_map_update_elem m k (initState cfg 0))
      (fun i hi => by
        rw [bpf_map_update_elem_other m k (k + 1 + i) (initState cfg 0) (by omega)]
        have h := hnone (i + 1) (by omega)
        rw [show k + 1 + i = k + (i + 1) from by omega]
        exact h)
      (by omega)
    refine ⟨by rw [ihsize, hm1size]; omega, ?_⟩
    intro s hs
    rw [ihlookup s (by omega),
      bpf_map_update_elem_other m k s (initState cfg 0) (by omega)]

/-- Claim C7 (amended): the admit/drop outcome for each packet of one
source is a function only of that source's own arrival pattern and the
configuration — provided every first-seen packet arrives while the
State Store holds fewer than 16,384 entries.  (At capacity the
independence fails: a new source's insertion silently fails and its
packets are all treated as first-seen, so its outcomes depend on whether
other sources' traffic filled the store.) -/
theorem C7_per_source_independence (cfg : Config) (S : Nat) (tr1 tr2 : List (Nat × Nat))
    (h1 : runOk cfg emptyMap tr1 = true) (h2 : runOk cfg emptyMap tr2 = true)
    (hf : tr1.filter (fun q => q.2 == S) = tr2.filter (fun q => q.2 == S)) :
    verdictsFor cfg S emptyMap tr1 = verdictsFor cfg S emptyMap tr2 := by
  rw [verdictsFor_eq_bucketRun cfg S tr1 emptyMap h1,
    verdictsFor_eq_bucketRun cfg S tr2 emptyMap h2, hf]

theorem C7_per_source_independence_witness :
    runOk ⟨1000, 2⟩ emptyMap [(0, 1), (0, 9), (1, 1), (2, 1)] = true ∧
    runOk ⟨1000, 2⟩ emptyMap [(0, 1), (1, 1), (5, 9), (2, 1), (7, 9)] = true ∧
    ([(0, 1), (0, 9), (1, 1), (2, 1)] : List (Nat × Nat)).filter (fun q => q.2 == 1) =
      ([(0, 1), (1, 1), (5, 9), (2, 1), (7, 9)] : List (Nat × Nat)).filter (fun q => q.2 == 1) ∧
    verdictsFor ⟨1000, 2⟩ 1 emptyMap [(0, 1), (0, 9), (1, 1), (2, 1)] =
      verdictsFor ⟨1000, 2⟩ 1 emptyMap [(0, 1), (1, 1), (5, 9), (2, 1), (7, 9)] :=
  ⟨by decide, by decide, by decide,
   C7_per_source_independence ⟨1000, 2⟩ 1 _ _ (by decide) (by decide) (by decide)⟩

/-- Claim C7 counterexample: at the 16,384-entry capacity the
independence claimed for every pair of sources fails.  Source `20000`
sends the same two instantaneous packets in both traces; in the second
trace it is alone and (with `burst = 1`) its second packet is dropped,
while in the first trace 16,384 other sources have filled the State
Store beforehand, its bucket insertion silently fails, and both of its
packets are admitted. -/
theorem C7_capacity_refutes :
    ((fillTrace 16384 ++ [(0, 20000), (0, 20000)]).filter (fun q => q.2 == 20000) =
      ([(0, 20000), (0, 20000)] : List (Nat × Nat)).filter (fun q => q.2 == 20000)) ∧
    verdictsFor ⟨1000, 1⟩ 20000 emptyMap (fillTrace 16384 ++ [(0, 20000), (0, 20000)]) ≠
      verdictsFor ⟨1000, 1⟩ 20000 emptyMap [(0, 20000), (0, 20000)] := by
  have hmem : ∀ q ∈ fillTrace 16384, q.2 ≠ 20000 := by
    intro q hq
    simp only [fillTrace, List.mem_map, List.mem_range] at hq
    obtain ⟨i, hi, rfl⟩ := hq
    simp only
    omega
  have hft : fillTrace 16384 = (List.range 16384).map (fun i => ((0 : Nat), 0 + i)) := by
    simp [fillTrace]
  constructor
  · rw [List.filter_append, List.filter_eq_nil_iff.mpr (by
      intro q hq
      simpa using hmem q hq), List.nil_append]
  · obtain ⟨hsize, hlook⟩ := runMap_fresh_sources ⟨1000, 1⟩ 16384 0 emptyMap
      (fun i _ => rfl) (by decide)
    rw [verdictsFor_append ⟨1000, 1⟩ 20000 (fillTrace 16384) [(0, 20000), (0, 20000)] emptyMap,
      verdictsFor_of_not_mem ⟨1000, 1⟩ 20000 (fillTrace 16384) emptyMap hmem,
      List.nil_append, hft]
    have hlook2 : (runMap ⟨1000, 1⟩ emptyMap
        ((List.range 16384).map (fun i => ((0 : Nat), 0 + i)))).lookup 20000 = none := by
      rw [hlook 20000 (by omega)]
      rfl
    have hsize2 : ¬ (runMap ⟨1000, 1⟩ emptyMap
        ((List.range 16384).map (fun i => ((0 : Nat), 0 + i)))).size < rate_map_max_entries := by
      rw [hsize]
      decide
    have hstep : tc_ingress ⟨1000, 1⟩
        (runMap ⟨1000, 1⟩ emptyMap ((List.range 16384).map (fun i => ((0 : Nat), 0 + i))))
        true 0 (ipv4Packet 20000) =
        ⟨TC_ACT_OK,
         runMap ⟨1000, 1⟩ emptyMap ((List.range 16384).map (fun i => ((0 : Nat), 0 + i))),
         none⟩ := by
      rw [tc_ingress_first_seen _ _ true 0 20000 hlook2,
        bpf_map_update_elem_full _ 20000 _ hlook2 hsize2]
    have hfull : verdictsFor ⟨1000, 1⟩ 20000
        (runMap ⟨1000, 1⟩ emptyMap ((List.range 16384).map (fun i => ((0 : Nat), 0 + i))))
        [(0, 20000), (0, 20000)] = [TC_ACT_OK, TC_ACT_OK] := by
      simp only [verdictsFor, hstep]
      simp
    rw [hfull]
    decide

/-! ### Claim C8: process exit codes -/

/-- Claim C8 (code bug): on a clean shutdown in which the last
`ring_buffer__poll` before the shutdown flag was observed consumed a
positive number of records (here 3), `main` executes `return -err` with
`err = 3` still holding that record count, so the process exits with the
nonzero value `-3` instead of 0. -/
theorem C8_clean_shutdown_nonzero_exit :
    mainModel ⟨0, true, true, 0, true, 0, true, [3]⟩ = -3 ∧ (-3 : Int) ≠ 0 :=
  ⟨by decide, by decide⟩

end RateLimiter
